import Mathlib

/-!
Verification of the ghostly-memory-bank retrieval pipeline.

This file is a shallow embedding, in Lean 4, of the JavaScript sources:
  src/lib/retrieval.js   (shouldTriggerRetrieval, calculateConfidence,
                          retrieveMemories, semanticSearch, textSearch,
                          suggestNextCommand, retrieve)
  src/lib/embedding.js   (cosineSimilarity, commandSimilarity)
  src/lib/episodes.js    (groupEventsIntoEpisodes)
  src/lib/config.js      (the configuration record shape)

Modelling conventions:
  - JavaScript numbers are modelled as real numbers; event timestamps
    (millisecond epoch integers) as Int; array indices and lengths as Nat.
  - JavaScript strings are modelled as Lean String; the string operations
    the code uses (trim, toLowerCase, split, includes, join) are modelled
    at character level on List Char so that they reduce definitionally.
  - Nullable / optional values are Option; JavaScript truthiness of a
    possibly-missing string (falsy for undefined, null and the empty
    string) is the function jsTruthy below.
  - The configuration object produced by loadConfig, the database module
    and the outcome of the asynchronous embedding provider are passed as
    explicit parameters instead of being read from module state or awaited.
  - Fallible code (thrown exceptions) is modelled with Except.
-/

namespace Ghostly

/-- jsTruthy models JavaScript truthiness of an optional string value:
undefined, null and the empty string are falsy. -/
def jsTruthy : Option String → Bool
  | none => false
  | some s => s != ""

/-- trimChars models String.prototype.trim: strip whitespace from both ends. -/
def trimChars (l : List Char) : List Char :=
  ((l.dropWhile Char.isWhitespace).reverse.dropWhile Char.isWhitespace).reverse

/-- splitWsAux models String.prototype.split on a whitespace regexp at
character level: it cuts at every whitespace character (producing empty
tokens for runs, filtered by the callers that model a one-or-more regexp). -/
def splitWsAux : List Char → List Char → List (List Char)
  | [], acc => [acc.reverse]
  | c :: cs, acc =>
    if c.isWhitespace then acc.reverse :: splitWsAux cs []
    else splitWsAux cs (c :: acc)

/-- splitOnChar models String.prototype.split with a one-character separator. -/
def splitOnChar (sep : Char) : List Char → List Char → List (List Char)
  | [], acc => [acc.reverse]
  | c :: cs, acc =>
    if c = sep then acc.reverse :: splitOnChar sep cs []
    else splitOnChar sep cs (c :: acc)

/-- containsChars models String.prototype.includes: contiguous substring test. -/
def containsChars (hay needle : List Char) : Bool :=
  (List.range (hay.length + 1)).any (fun i => needle.isPrefixOf (hay.drop i))

/-- charListLe is the lexicographic comparison on character sequences used by
the default Array.prototype.sort comparator on strings. -/
def charListLe : List Char → List Char → Bool
  | [], _ => true
  | _ :: _, [] => false
  | a :: as, b :: bs => if a < b then true else if b < a then false else charListLe as bs

/-- insertCharList is the insertion step of the sort modelling Array.prototype.sort
on string arrays. -/
def insertCharList (x : List Char) : List (List Char) → List (List Char)
  | [] => [x]
  | y :: ys => if charListLe x y then x :: y :: ys else y :: insertCharList x ys

/-- sortCharLists models Array.prototype.sort with the default (code-unit
lexicographic) comparator on an array of strings. -/
def sortCharLists (l : List (List Char)) : List (List Char) :=
  l.foldr insertCharList []

/-- joinWithSep models Array.prototype.join with a one-character separator. -/
def joinWithSep (sep : Char) : List String → List Char
  | [] => []
  | [s] => s.data
  | s :: rest => s.data ++ sep :: joinWithSep sep rest

/-! Configuration (src/lib/config.js, getDefaultConfig shape).
Only the fields the verified functions read are modelled. -/

/-- Weights is config.retrieval.weights. -/
structure Weights where
  semantic_similarity : ℝ
  project_match : ℝ
  command_similarity : ℝ

/-- TriggerFlags is config.retrieval.triggers. -/
structure TriggerFlags where
  on_error : Bool
  on_repeat_command : Bool
  on_project_entry : Bool
  on_branch_change : Bool

/-- RetrievalConfig is config.retrieval. -/
structure RetrievalConfig where
  min_confidence : ℝ
  weights : Weights
  max_memories : Nat
  triggers : TriggerFlags

/-- CaptureConfig is config.capture (the fields groupEventsIntoEpisodes reads);
sequence_window is in minutes. -/
structure CaptureConfig where
  sequence_window : Int
  min_sequence_length : Nat

/-- OutputConfig is config.output (the field retrieve reads; the display-only
format field is not modelled). -/
structure OutputConfig where
  show_suggestions : Bool

/-- Config is the object returned by loadConfig. -/
structure Config where
  capture : CaptureConfig
  retrieval : RetrievalConfig
  output : OutputConfig

/-! Data model of the retrieval layer. -/

/-- Context is the current terminal context handed to the retrieval layer. -/
structure Context where
  command : Option String
  cwd : Option String
  error : Option String
  project_hash : String
  exit_code : Int
  is_repeated : Bool
  is_project_entry : Bool
  branch_changed : Bool

/-- Episode is a stored episode row as returned by the database module
(the fields the retrieval layer reads). -/
structure Episode where
  id : Nat
  project_hash : String
  fix : Option String

/-- RetrievedMemory is an episode annotated with a similarity score, as built
by semanticSearch and textSearch via object spread. -/
structure RetrievedMemory where
  id : Nat
  project_hash : String
  fix : Option String
  similarity : Option ℝ

/-- ScoredMemory is a retrieved memory annotated with confidence, semanticScore
and projectMatch, as built by the map inside retrieveMemories. -/
structure ScoredMemory where
  id : Nat
  project_hash : String
  fix : Option String
  similarity : Option ℝ
  confidence : ℝ
  semanticScore : ℝ
  projectMatch : Bool

/-- Database models the db module as consumed by the retrieval layer:
recentEpisodes is the bounded candidate set db.getRecentEpisodes returns for
the current project, getEmbedding looks up a stored vector by episode id, and
searchEpisodes is the lexical query (the query string is a character list). -/
structure Database where
  recentEpisodes : List Episode
  getEmbedding : Nat → Option (List ℝ)
  searchEpisodes : List Char → Nat → List Episode

/-! Embedding layer (src/lib/embedding.js). -/

/-- dotList is the accumulated dot product of the loop in cosineSimilarity;
applied to a vector with itself it is the accumulated squared norm. -/
noncomputable def dotList (a b : List ℝ) : ℝ :=
  (List.zipWith (fun x y => x * y) a b).sum

/-- cosineSimilarity (src/lib/embedding.js lines 114-137): throws on a
dimension mismatch, returns 0 when either norm is 0, else the normalized
dot product. -/
noncomputable def cosineSimilarity (a b : List ℝ) : Except String ℝ :=
  if a.length ≠ b.length then Except.error "Vectors must have the same dimension"
  else
    let dotProduct := dotList a b
    let normA := Real.sqrt (dotList a a)
    let normB := Real.sqrt (dotList b b)
    if normA = 0 ∨ normB = 0 then Except.ok 0
    else Except.ok (dotProduct / (normA * normB))

/-- normalizeCommand is the normalize closure inside commandSimilarity:
lowercase, trim, split on a whitespace run regexp. Splitting the empty
string yields one empty token, as in JavaScript. -/
def normalizeCommand (cmd : String) : List (List Char) :=
  let t := trimChars (cmd.data.map Char.toLower)
  if t = [] then [[]]
  else (splitWsAux t []).filter (fun tok => tok ≠ [])

/-- commandSimilarity (src/lib/embedding.js lines 145-177): 0 when either
command is falsy or the first tokens differ, 1 when the first tokens match
and neither command has further arguments, else the count of first-command
argument tokens also present in the second, divided by the number of
distinct argument tokens overall. -/
noncomputable def commandSimilarity (cmd1 cmd2 : String) : ℝ :=
  if cmd1 = "" ∨ cmd2 = "" then 0
  else
    let parts1 := normalizeCommand cmd1
    let parts2 := normalizeCommand cmd2
    let cmdName1 := parts1.headD []
    let cmdName2 := parts2.headD []
    if cmdName1 = cmdName2 then
      let args1 := sortCharLists (parts1.drop 1)
      let args2 := sortCharLists (parts2.drop 1)
      if args1.length = 0 ∧ args2.length = 0 then 1
      else
        (((args1.filter (fun arg => decide (arg ∈ args2))).length : ℝ) /
          (((args1 ++ args2).dedup).length : ℝ))
    else 0

/-! Episode grouping (src/lib/episodes.js lines 302-342). -/

/-- TerminalEvent is a captured terminal event, restricted to the fields
groupEventsIntoEpisodes reads; timestamp is epoch milliseconds. -/
structure TerminalEvent where
  timestamp : Int
  project_hash : String
deriving DecidableEq

/-- groupStep is one iteration of the loop in groupEventsIntoEpisodes. The
state is (episodes, currentEpisode, episodeStartTime). The new-group test
mirrors the source exactly: episodeStartTime is falsy when it is null or 0,
the gap is measured against episodeStartTime (set only when a group starts),
and the project comparison is against the first event of the current group. -/
def groupStep (config : Config) (st : List (List TerminalEvent) × List TerminalEvent × Option Int)
    (event : TerminalEvent) : List (List TerminalEvent) × List TerminalEvent × Option Int :=
  let episodes := st.1
  let currentEpisode := st.2.1
  let episodeStartTime := st.2.2
  let eventTime := event.timestamp
  let timeWindow := config.capture.sequence_window * 60 * 1000
  let startFalsy := episodeStartTime.getD 0 = 0
  let differentProject : Bool :=
    match currentEpisode.head? with
    | none => true
    | some e => event.project_hash != e.project_hash
  if startFalsy ∨ eventTime - episodeStartTime.getD 0 > timeWindow ∨ differentProject then
    ((if config.capture.min_sequence_length ≤ currentEpisode.length
        then episodes ++ [currentEpisode] else episodes),
      [event], some eventTime)
  else
    (episodes, currentEpisode ++ [event], episodeStartTime)

/-- groupEventsIntoEpisodes (src/lib/episodes.js lines 302-342): scan the
events, cutting groups per groupStep, flush the final group, and keep only
groups whose length reaches config.capture.min_sequence_length. -/
def groupEventsIntoEpisodes (config : Config) (events : List TerminalEvent) :
    List (List TerminalEvent) :=
  if events.length = 0 then []
  else
    let st := events.foldl (groupStep config) ([], [], none)
    if config.capture.min_sequence_length ≤ st.2.1.length then st.1 ++ [st.2.1] else st.1

/-- Modelled from the spec: groupClaimedStep is one step of the grouping rule
exactly as claim C2 words it, measuring the time gap against the timestamp of
the previous event (the event most recently added to the current group)
rather than against the timestamp at which the group started. -/
def groupClaimedStep (config : Config) (st : List (List TerminalEvent) × List TerminalEvent)
    (event : TerminalEvent) : List (List TerminalEvent) × List TerminalEvent :=
  let episodes := st.1
  let cur := st.2
  let timeWindow := config.capture.sequence_window * 60 * 1000
  let newGroup : Bool :=
    match cur.getLast?, cur.head? with
    | some prev, some h =>
      decide (event.timestamp - prev.timestamp > timeWindow) || (event.project_hash != h.project_hash)
    | _, _ => true
  if newGroup then
    ((if config.capture.min_sequence_length ≤ cur.length then episodes ++ [cur] else episodes),
      [event])
  else (episodes, cur ++ [event])

/-- Modelled from the spec: groupEventsClaimed is the grouping function exactly
as claim C2 words it (gap measured to the previous event). -/
def groupEventsClaimed (config : Config) (events : List TerminalEvent) :
    List (List TerminalEvent) :=
  if events.length = 0 then []
  else
    let st := events.foldl (groupClaimedStep config) ([], [])
    if config.capture.min_sequence_length ≤ st.2.length then st.1 ++ [st.2] else st.1

/-- groupAmendedStep is one step of the grouping rule as amended: the gap is
measured against the timestamp of the first event of the current group. -/
def groupAmendedStep (config : Config) (st : List (List TerminalEvent) × List TerminalEvent)
    (event : TerminalEvent) : List (List TerminalEvent) × List TerminalEvent :=
  let episodes := st.1
  let cur := st.2
  let timeWindow := config.capture.sequence_window * 60 * 1000
  let newGroup : Bool :=
    match cur.head? with
    | none => true
    | some h =>
      decide (event.timestamp - h.timestamp > timeWindow) || (event.project_hash != h.project_hash)
  if newGroup then
    ((if config.capture.min_sequence_length ≤ cur.length then episodes ++ [cur] else episodes),
      [event])
  else (episodes, cur ++ [event])

/-- groupEventsAmended is the grouping function as amended claim C2 words it:
a new group starts when there is no current group, or the gap to the
timestamp of the first event of the current group exceeds the window, or the
project hash differs; short groups are discarded, the last group is flushed. -/
def groupEventsAmended (config : Config) (events : List TerminalEvent) :
    List (List TerminalEvent) :=
  if events.length = 0 then []
  else
    let st := events.foldl (groupAmendedStep config) ([], [])
    if config.capture.min_sequence_length ≤ st.2.length then st.1 ++ [st.2] else st.1

/-! Retrieval layer (src/lib/retrieval.js). -/

/-- shouldTriggerRetrieval (retrieval layer, lines 847-875): first match among
the configured trigger flags, in the order error, repeated command, project
entry, branch change. -/
def shouldTriggerRetrieval (context : Context) (config : Config) : Bool × Option String :=
  let triggers := config.retrieval.triggers
  if triggers.on_error && (context.exit_code != 0) then (true, some "error")
  else if triggers.on_repeat_command && context.is_repeated then (true, some "repeated_command")
  else if triggers.on_project_entry && context.is_project_entry then (true, some "project_entry")
  else if triggers.on_branch_change && context.branch_changed then (true, some "branch_change")
  else (false, none)

/-- calculateConfidence (retrieval layer, lines 884-907): blend of semantic,
project and command scores by the configured weights, clamped to the unit
interval by Math.min und Math.max. -/
noncomputable def calculateConfidence (config : Config) (memory : RetrievedMemory)
    (context : Context) (semanticScore : ℝ) : ℝ :=
  let weights := config.retrieval.weights
  let projectScore : ℝ := if memory.project_hash = context.project_hash then 1 else 0
  let cmdScore : ℝ :=
    if jsTruthy context.command && jsTruthy memory.fix then
      commandSimilarity (context.command.getD "") (memory.fix.getD "")
    else 0
  let confidence :=
    weights.semantic_similarity * semanticScore +
    weights.project_match * projectScore +
    weights.command_similarity * cmdScore
  min 1 (max 0 confidence)

/-- scoreMemory is the body of the map inside retrieveMemories: attach
confidence, semanticScore (memory.similarity with falsy values mapped to 0)
and projectMatch to a retrieved memory. -/
noncomputable def scoreMemory (config : Config) (context : Context)
    (memory : RetrievedMemory) : ScoredMemory :=
  let semanticScore := memory.similarity.getD 0
  let confidence := calculateConfidence config memory context semanticScore
  ⟨memory.id, memory.project_hash, memory.fix, memory.similarity,
    confidence, semanticScore, memory.project_hash == context.project_hash⟩

/-- insertByConfidence is the insertion step of the stable descending sort that
models Array.prototype.sort with comparator (a, b) => b.confidence - a.confidence;
ECMAScript requires that sort to be stable. An element is placed before the
existing elements it strictly beats and before equal-confidence elements that
came later in the input. -/
noncomputable def insertByConfidence (x : ScoredMemory) :
    List ScoredMemory → List ScoredMemory
  | [] => [x]
  | y :: ys =>
    if y.confidence ≤ x.confidence then x :: y :: ys else y :: insertByConfidence x ys

/-- sortByConfidenceDesc models the stable descending-by-confidence sort in
retrieveMemories. -/
noncomputable def sortByConfidenceDesc (l : List ScoredMemory) : List ScoredMemory :=
  l.foldr insertByConfidence []

/-- insertBySimilarity is the insertion step of the stable descending sort that
models Array.prototype.sort with comparator (a, b) => b.similarity - a.similarity
inside semanticSearch. -/
noncomputable def insertBySimilarity (x : RetrievedMemory) :
    List RetrievedMemory → List RetrievedMemory
  | [] => [x]
  | y :: ys =>
    if y.similarity.getD 0 ≤ x.similarity.getD 0 then x :: y :: ys
    else y :: insertBySimilarity x ys

/-- sortBySimilarityDesc models the stable descending-by-similarity sort in
semanticSearch. -/
noncomputable def sortBySimilarityDesc (l : List RetrievedMemory) : List RetrievedMemory :=
  l.foldr insertBySimilarity []

/-- computeSimilarities is the loop inside the try block of semanticSearch:
for each episode with a stored embedding, compute the cosine similarity with
the query embedding and annotate the episode with it. A thrown dimension
mismatch aborts the whole loop (modelled by Except error propagation). -/
noncomputable def computeSimilarities (db : Database) (queryEmbedding : List ℝ) :
    List Episode → Except String (List RetrievedMemory)
  | [] => Except.ok []
  | ep :: rest =>
    match db.getEmbedding ep.id with
    | none => computeSimilarities db queryEmbedding rest
    | some vector =>
      match cosineSimilarity queryEmbedding vector with
      | Except.error e => Except.error e
      | Except.ok similarity =>
        match computeSimilarities db queryEmbedding rest with
        | Except.error e => Except.error e
        | Except.ok tail =>
          Except.ok (⟨ep.id, ep.project_hash, ep.fix, some similarity⟩ :: tail)

/-- semanticSearch (retrieval layer, lines 958-996): queryEmbedding is the
outcome of the awaited embedding-provider call (the provider may fail); the
surrounding try/catch turns any failure, including a dimension mismatch
raised by cosineSimilarity, into an empty result list. On success the
annotated episodes are sorted by similarity and truncated to the limit. -/
noncomputable def semanticSearch (db : Database) (queryEmbedding : Except String (List ℝ))
    (limit : Nat) : List RetrievedMemory :=
  match queryEmbedding with
  | Except.error _ => []
  | Except.ok q =>
    match computeSimilarities db q db.recentEpisodes with
    | Except.error _ => []
    | Except.ok similarities => (sortBySimilarityDesc similarities).take limit

/-- textSearch (retrieval layer, lines 1004-1036): build a query from the
truthy context fields (command, error text, trailing path segment of cwd),
return nothing for an empty query, otherwise annotate every database match
with the fixed placeholder similarity 0.5. -/
noncomputable def textSearch (db : Database) (context : Context) (limit : Nat) :
    List RetrievedMemory :=
  let searchTerms :=
    (if jsTruthy context.command then [context.command.getD ""] else []) ++
    (if jsTruthy context.error then [context.error.getD ""] else []) ++
    (if jsTruthy context.cwd then
      (let projectName := (splitOnChar '/' (context.cwd.getD "").data []).getLastD []
       if projectName ≠ [] then [String.mk projectName] else [])
     else [])
  let query := joinWithSep ' ' searchTerms
  if query.length = 0 then []
  else (db.searchEpisodes query limit).map
    (fun ep => ⟨ep.id, ep.project_hash, ep.fix, some 0.5⟩)

/-- resolveMaxResults models the defaulting of the maxResults parameter of
retrieveMemories: a falsy argument (absent or 0) is replaced by
config.retrieval.max_memories. -/
def resolveMaxResults (config : Config) (maxResults : Option Nat) : Nat :=
  if maxResults.getD 0 = 0 then config.retrieval.max_memories else maxResults.getD 0

/-- rankCandidates is the deterministic second half of retrieveMemories,
factored over the candidate list the search step produced: score every
candidate, discard those below config.retrieval.min_confidence, sort the
survivors by confidence descending (stably) and truncate to maxResults. -/
noncomputable def rankCandidates (config : Config) (context : Context)
    (candidates : List RetrievedMemory) (maxResults : Nat) : List ScoredMemory :=
  let scoredMemories := candidates.map (scoreMemory config context)
  let filteredMemories :=
    scoredMemories.filter (fun m => decide (config.retrieval.min_confidence ≤ m.confidence))
  (sortByConfidenceDesc filteredMemories).take maxResults

/-- retrieveMemories (retrieval layer, lines 915-950): semantic search first,
falling back to textSearch when it yields nothing, then score, filter, sort
and truncate via rankCandidates. -/
noncomputable def retrieveMemories (config : Config) (db : Database) (context : Context)
    (queryEmbedding : Except String (List ℝ)) (maxResults : Option Nat) : List ScoredMemory :=
  let maxR := resolveMaxResults config maxResults
  let memories := semanticSearch db queryEmbedding maxR
  let memories := if memories.length = 0 then textSearch db context maxR else memories
  rankCandidates config context memories maxR

/-- findNextStep is the loop of suggestNextCommand over the split steps: at the
first step whose trimmed text contains the current command and that is not
the last step, return the following step trimmed; a match at the last step
returns nothing (the loop just runs out). -/
def findNextStep (currentStep : List Char) : List (List Char) → Option (List Char)
  | [] => none
  | [_] => none
  | s :: next :: rest =>
    if containsChars (trimChars s) currentStep then some (trimChars next)
    else findNextStep currentStep (next :: rest)

/-- suggestNextCommand (retrieval layer, lines 1102-1128): null for a falsy
fix; a fix without the arrow separator is suggested verbatim; otherwise the
step after the first matching non-final step, defaulting to the first step. -/
def suggestNextCommand (memory : ScoredMemory) (context : Context) : Option String :=
  match memory.fix with
  | none => none
  | some fix =>
    if fix = "" then none
    else if containsChars fix.data ['→'] = false then some fix
    else
      let steps := splitOnChar '→' fix.data []
      let found :=
        if jsTruthy context.command then findNextStep (context.command.getD "").data steps
        else none
      match found with
      | some s => some (String.mk s)
      | none => some (String.mk (trimChars (steps.headD [])))

/-- stdTriggers is the default trigger configuration (all four enabled). -/
def stdTriggers : TriggerFlags := ⟨true, true, true, true⟩

/-- stdWeights is the default weight configuration. -/
noncomputable def stdWeights : Weights := ⟨0.5, 0.3, 0.2⟩

/-- cfgWin5Min3 is a configuration with the default 5-minute sequence window
and minimum sequence length 3. -/
noncomputable def cfgWin5Min3 : Config :=
  ⟨⟨5, 3⟩, ⟨0.75, stdWeights, 3, stdTriggers⟩, ⟨true⟩⟩

/-- cfgWin5Min1 is a configuration with the 5-minute sequence window and
minimum sequence length 1, making every kept group visible. -/
noncomputable def cfgWin5Min1 : Config :=
  ⟨⟨5, 1⟩, ⟨0.75, stdWeights, 3, stdTriggers⟩, ⟨true⟩⟩

/-- fiveEvents is a run of 5 events of one project, all within the 5-minute
window of the first. -/
def fiveEvents : List TerminalEvent :=
  [⟨1000, "projA"⟩, ⟨2000, "projA"⟩, ⟨3000, "projA"⟩, ⟨4000, "projA"⟩, ⟨5000, "projA"⟩]

/-- lateEvent is a sixth event of the same project 2 hours after the fifth. -/
def lateEvent : TerminalEvent := ⟨5000 + 7200000, "projA"⟩

/-- cfgScore is a configuration whose weights make the confidence of a
candidate equal its semantic similarity, with the default 0.75 threshold. -/
noncomputable def cfgScore : Config :=
  ⟨⟨5, 3⟩, ⟨0.75, ⟨1, 0, 0⟩, 3, stdTriggers⟩, ⟨true⟩⟩

/-- ctxPlain is a context carrying no command, in a project that matches no
candidate. -/
def ctxPlain : Context := ⟨none, none, none, "ctxProj", 1, false, false, false⟩

/-- memHigh is a retrieved candidate with similarity 0.9. -/
noncomputable def memHigh : RetrievedMemory := ⟨1, "projA", none, some 0.9⟩

/-- memLow is a retrieved candidate with similarity 0.6. -/
noncomputable def memLow : RetrievedMemory := ⟨2, "projB", none, some 0.6⟩

/-- RetrievalResult is the record retrieve returns (the display-only formatted
field is not modelled). -/
structure RetrievalResult where
  triggered : Bool
  reason : Option String
  memories : List ScoredMemory
  suggestion : Option String
  topMemory : Option ScoredMemory
  message : Option String

/-- retrieve (retrieval layer, lines 1135-1177): evaluate the trigger, retrieve
and rank memories, and derive the suggestion from the top memory. -/
noncomputable def retrieve (config : Config) (db : Database) (context : Context)
    (queryEmbedding : Except String (List ℝ)) : RetrievalResult :=
  let t := shouldTriggerRetrieval context config
  if t.1 = false then ⟨false, t.2, [], none, none, none⟩
  else
    let memories := retrieveMemories config db context queryEmbedding none
    if memories.length = 0 then
      ⟨true, t.2, [], none, none, some "No relevant memories found"⟩
    else
      let topMemory := memories.head?
      let suggestion :=
        if config.output.show_suggestions then
          match topMemory with
          | some m => suggestNextCommand m context
          | none => none
        else none
      ⟨true, t.2, memories, suggestion, topMemory, none⟩

/-! Theorems. -/

/-- C1: for every memory, context and semanticScore input, calculateConfidence
returns the weighted blend of the semantic score, the project match indicator
and the command similarity score, clamped to the unit interval, and the result
lies in that interval whatever the weights and inputs are. -/
theorem calculateConfidence_clamped_blend :
    ∀ (config : Config) (memory : RetrievedMemory) (context : Context) (semanticScore : ℝ),
      calculateConfidence config memory context semanticScore =
        min 1 (max 0
          (config.retrieval.weights.semantic_similarity * semanticScore +
           config.retrieval.weights.project_match *
             (if memory.project_hash = context.project_hash then 1 else 0) +
           config.retrieval.weights.command_similarity *
             (if jsTruthy context.command && jsTruthy memory.fix then
                commandSimilarity (context.command.getD "") (memory.fix.getD "")
              else 0))) ∧
      0 ≤ calculateConfidence config memory context semanticScore ∧
      calculateConfidence config memory context semanticScore ≤ 1 := by
  intro config memory context semanticScore
  refine ⟨rfl, ?_, ?_⟩
  · exact le_min zero_le_one (le_max_left 0 _)
  · exact min_le_left 1 _

/-- C6: shouldTriggerRetrieval checks the configured triggers in the priority
order error, repeated command, project entry, branch change, returning the
first matching reason, and a context with exit code 0 and all situational
flags false never triggers, whatever the configuration. -/
theorem shouldTriggerRetrieval_priority :
    (∀ (context : Context) (config : Config),
      context.exit_code = 0 → context.is_repeated = false →
      context.is_project_entry = false → context.branch_changed = false →
      shouldTriggerRetrieval context config = (false, none)) ∧
    (∀ (context : Context) (config : Config),
      config.retrieval.triggers.on_error = true → context.exit_code ≠ 0 →
      shouldTriggerRetrieval context config = (true, some "error")) ∧
    (∀ (context : Context) (config : Config),
      (config.retrieval.triggers.on_error = false ∨ context.exit_code = 0) →
      config.retrieval.triggers.on_repeat_command = true → context.is_repeated = true →
      shouldTriggerRetrieval context config = (true, some "repeated_command")) ∧
    (∀ (context : Context) (config : Config),
      (config.retrieval.triggers.on_error = false ∨ context.exit_code = 0) →
      (config.retrieval.triggers.on_repeat_command = false ∨ context.is_repeated = false) →
      config.retrieval.triggers.on_project_entry = true → context.is_project_entry = true →
      shouldTriggerRetrieval context config = (true, some "project_entry")) ∧
    (∀ (context : Context) (config : Config),
      (config.retrieval.triggers.on_error = false ∨ context.exit_code = 0) →
      (config.retrieval.triggers.on_repeat_command = false ∨ context.is_repeated = false) →
      (config.retrieval.triggers.on_project_entry = false ∨ context.is_project_entry = false) →
      config.retrieval.triggers.on_branch_change = true → context.branch_changed = true →
      shouldTriggerRetrieval context config = (true, some "branch_change")) := by
  refine ⟨?_, ?_, ?_, ?_, ?_⟩
  · intro context config h0 h1 h2 h3
    simp [shouldTriggerRetrieval, h0, h1, h2, h3]
  · intro context config h0 h1
    simp [shouldTriggerRetrieval, h0, h1]
  · intro context config h0 h1 h2
    rcases h0 with h0 | h0 <;> simp [shouldTriggerRetrieval, h0, h1, h2]
  · intro context config h0 h1 h2 h3
    rcases h0 with h0 | h0 <;> rcases h1 with h1 | h1 <;>
      simp [shouldTriggerRetrieval, h0, h1, h2, h3]
  · intro context config h0 h1 h2 h3 h4
    rcases h0 with h0 | h0 <;> rcases h1 with h1 | h1 <;> rcases h2 with h2 | h2 <;>
      simp [shouldTriggerRetrieval, h0, h1, h2, h3, h4]

/-- Witness for C6: with every trigger enabled, a benign context does not
trigger retrieval. -/
theorem shouldTriggerRetrieval_priority_witness :
    shouldTriggerRetrieval ⟨none, none, none, "p", 0, false, false, false⟩ cfgWin5Min3 =
      (false, none) :=
  shouldTriggerRetrieval_priority.1 _ _ rfl rfl rfl rfl

/-- One step of groupStep agrees with one step of the amended rule when the
recorded group start time is the timestamp of the first event of the current
group and that timestamp is positive (so not falsy). -/
theorem groupStep_eq_amended (config : Config) (episodes : List (List TerminalEvent))
    (cur : List TerminalEvent) (ev : TerminalEvent)
    (hcur : ∀ hd ∈ cur.head?, 0 < hd.timestamp) :
    groupStep config (episodes, cur, cur.head?.map (fun e => e.timestamp)) ev =
      ((groupAmendedStep config (episodes, cur) ev).1,
       (groupAmendedStep config (episodes, cur) ev).2,
       (groupAmendedStep config (episodes, cur) ev).2.head?.map (fun e => e.timestamp)) := by
  cases cur with
  | nil =>
    simp [groupStep, groupAmendedStep]
  | cons h t =>
    have hpos : 0 < h.timestamp := hcur h rfl
    have hne : h.timestamp ≠ 0 := ne_of_gt hpos
    by_cases hgap : ev.timestamp - h.timestamp > config.capture.sequence_window * 60 * 1000
    · simp [groupStep, groupAmendedStep, hne, hgap]
    · by_cases hproj : ev.project_hash = h.project_hash
      · simp [groupStep, groupAmendedStep, hne, hgap, hproj]
      · simp [groupStep, groupAmendedStep, hne, hgap, hproj]

/-- The head of the current group after an amended step is either the new event
or the previous head. -/
theorem groupAmendedStep_head (config : Config) (episodes : List (List TerminalEvent))
    (cur : List TerminalEvent) (ev : TerminalEvent) :
    ∀ hd ∈ (groupAmendedStep config (episodes, cur) ev).2.head?,
      hd = ev ∨ hd ∈ cur.head? := by
  intro hd hmem
  unfold groupAmendedStep at hmem
  cases cur with
  | nil =>
    simp at hmem
    first
    | exact Or.inl hmem
    | exact Or.inl hmem.symm
  | cons h t =>
    by_cases hgap : config.capture.sequence_window * 60 * 1000 < ev.timestamp - h.timestamp
    · simp [hgap] at hmem
      first
      | exact Or.inl hmem
      | exact Or.inl hmem.symm
    · by_cases hproj : ev.project_hash = h.project_hash
      · simp [hgap, hproj] at hmem
        exact Or.inr (by simp [hmem])
      · simp [hgap, hproj] at hmem
        first
        | exact Or.inl hmem
        | exact Or.inl hmem.symm

/-- The fold underlying groupEventsIntoEpisodes agrees with the fold of the
amended rule when every event timestamp is positive. -/
theorem groupFold_eq_amended (config : Config) :
    ∀ (events : List TerminalEvent) (episodes : List (List TerminalEvent))
      (cur : List TerminalEvent),
      (∀ e ∈ events, 0 < e.timestamp) →
      (∀ hd ∈ cur.head?, 0 < hd.timestamp) →
      events.foldl (groupStep config) (episodes, cur, cur.head?.map (fun e => e.timestamp)) =
        ((events.foldl (groupAmendedStep config) (episodes, cur)).1,
         (events.foldl (groupAmendedStep config) (episodes, cur)).2,
         (events.foldl (groupAmendedStep config) (episodes, cur)).2.head?.map
           (fun e => e.timestamp)) := by
  intro events
  induction events with
  | nil =>
    intro episodes cur _ _
    rfl
  | cons ev rest ih =>
    intro episodes cur hpos hcur
    have hev : 0 < ev.timestamp := hpos ev (List.mem_cons_self ev rest)
    have hrest : ∀ e ∈ rest, 0 < e.timestamp :=
      fun e he => hpos e (List.mem_cons_of_mem ev he)
    have hstep := groupStep_eq_amended config episodes cur ev hcur
    have hhead : ∀ hd ∈ (groupAmendedStep config (episodes, cur) ev).2.head?,
        0 < hd.timestamp := by
      intro hd hmem
      rcases groupAmendedStep_head config episodes cur ev hd hmem with h | h
      · exact h ▸ hev
      · exact hcur hd h
    calc (ev :: rest).foldl (groupStep config)
          (episodes, cur, cur.head?.map (fun e => e.timestamp))
        = rest.foldl (groupStep config)
            (groupStep config (episodes, cur, cur.head?.map (fun e => e.timestamp)) ev) := by
          rw [List.foldl_cons]
      _ = rest.foldl (groupStep config)
            ((groupAmendedStep config (episodes, cur) ev).1,
             (groupAmendedStep config (episodes, cur) ev).2,
             (groupAmendedStep config (episodes, cur) ev).2.head?.map
               (fun e => e.timestamp)) := by rw [hstep]
      _ = _ := by
          rw [ih (groupAmendedStep config (episodes, cur) ev).1
            (groupAmendedStep config (episodes, cur) ev).2 hrest hhead]
          rw [List.foldl_cons]

/-- Counterexample for C2: three same-project events 200 seconds apart with a
5-minute window. Measuring the gap to the previous event (as the claim states)
keeps all three in one group, but the code measures the gap to the first event
of the group, so the third event starts a new group. -/
theorem groupEvents_gap_not_to_previous_counterexample :
    groupEventsIntoEpisodes cfgWin5Min1
        [⟨1, "projA"⟩, ⟨200001, "projA"⟩, ⟨400001, "projA"⟩] ≠
      groupEventsClaimed cfgWin5Min1
        [⟨1, "projA"⟩, ⟨200001, "projA"⟩, ⟨400001, "projA"⟩] := by
  decide

/-- C2 (amended): groupEventsIntoEpisodes scans events in order and starts a
new group exactly when there is no current group, or the gap to the timestamp
of the FIRST event of the current group exceeds the configured time window, or
the project hash differs from the first event of the group; short groups are
discarded and the last group is flushed the same way (stated for positive
timestamps, since a recorded start timestamp of 0 is falsy and also restarts
a group). In particular 5 events of one project within the window with minimum
sequence length 3 give one group of 5, and a 6th event 2 hours later starts a
new group: with minimum length 3 it is discarded, with minimum length 1 it is
kept as its own group. -/
theorem groupEventsIntoEpisodes_amended_rule :
    (∀ (config : Config) (events : List TerminalEvent),
      (∀ e ∈ events, 0 < e.timestamp) →
      groupEventsIntoEpisodes config events = groupEventsAmended config events) ∧
    groupEventsIntoEpisodes cfgWin5Min3 fiveEvents = [fiveEvents] ∧
    groupEventsIntoEpisodes cfgWin5Min3 (fiveEvents ++ [lateEvent]) = [fiveEvents] ∧
    groupEventsIntoEpisodes cfgWin5Min1 (fiveEvents ++ [lateEvent]) =
      [fiveEvents, [lateEvent]] := by
  refine ⟨?_, by decide, by decide, by decide⟩
  intro config events hpos
  unfold groupEventsIntoEpisodes groupEventsAmended
  by_cases hlen : events.length = 0
  · simp [hlen]
  · have h' : events.foldl (groupStep config) ([], [], none) =
        ((events.foldl (groupAmendedStep config) ([], [])).1,
         (events.foldl (groupAmendedStep config) ([], [])).2,
         (events.foldl (groupAmendedStep config) ([], [])).2.head?.map
           (fun e => e.timestamp)) :=
      groupFold_eq_amended config events [] [] hpos (by simp)
    rw [if_neg hlen, if_neg hlen, h']

/-- Witness for C2: the amended rule instantiated on the concrete 6-event
scenario with positive timestamps. -/
theorem groupEventsIntoEpisodes_amended_rule_witness :
    groupEventsIntoEpisodes cfgWin5Min1 (fiveEvents ++ [lateEvent]) =
      groupEventsAmended cfgWin5Min1 (fiveEvents ++ [lateEvent]) :=
  groupEventsIntoEpisodes_amended_rule.1 cfgWin5Min1 (fiveEvents ++ [lateEvent]) (by decide)

/-- groupStep either closes the current group (flushing it when long enough and
restarting from the new event) or appends the new event; in the second case the
new-group condition was false, giving the recorded start time non-falsy, the
gap bound, and a project match with the head of the current group. -/
theorem groupStep_close_or_extend (config : Config) (episodes : List (List TerminalEvent))
    (cur : List TerminalEvent) (st : Option Int) (ev : TerminalEvent) :
    groupStep config (episodes, cur, st) ev =
      ((if config.capture.min_sequence_length ≤ cur.length then episodes ++ [cur]
        else episodes), [ev], some ev.timestamp) ∨
    (groupStep config (episodes, cur, st) ev = (episodes, cur ++ [ev], st) ∧
      st.getD 0 ≠ 0 ∧
      ev.timestamp - st.getD 0 ≤ config.capture.sequence_window * 60 * 1000 ∧
      ∀ hd ∈ cur.head?, ev.project_hash = hd.project_hash) := by
  by_cases hcond : (st.getD 0 = 0 ∨
      ev.timestamp - st.getD 0 > config.capture.sequence_window * 60 * 1000 ∨
      (match cur.head? with
        | none => true
        | some e => ev.project_hash != e.project_hash) = true)
  · left
    unfold groupStep
    dsimp only
    rw [if_pos hcond]
  · have hcond' := hcond
    push_neg at hcond'
    refine Or.inr ⟨?_, hcond'.1, hcond'.2.1, ?_⟩
    · unfold groupStep
      dsimp only
      rw [if_neg hcond]
    · intro hd hhd
      have h3 := hcond'.2.2
      cases cur with
      | nil => simp at hhd
      | cons h t =>
        have hhd' : hd = h := by simpa using hhd.symm
        rw [hhd']
        simpa using h3

/-- The fold underlying groupEventsIntoEpisodes preserves the group invariant:
closed groups reach the minimum length and are project-homogeneous inside the
time window of their first event; the open group satisfies the same window
property, and its recorded start time is the timestamp of its first event. -/
theorem groupFold_invariant (config : Config) (hw : 0 ≤ config.capture.sequence_window) :
    ∀ (events : List TerminalEvent) (episodes : List (List TerminalEvent))
      (cur : List TerminalEvent) (st : Option Int),
      List.Pairwise (fun a b => a.timestamp ≤ b.timestamp) events →
      (∀ e ∈ cur, ∀ f ∈ events, e.timestamp ≤ f.timestamp) →
      (∀ g ∈ episodes,
        config.capture.min_sequence_length ≤ g.length ∧
        ∀ hd ∈ g.head?, ∀ e ∈ g, e.project_hash = hd.project_hash ∧
          hd.timestamp ≤ e.timestamp ∧
          e.timestamp ≤ hd.timestamp + config.capture.sequence_window * 60 * 1000) →
      (∀ hd ∈ cur.head?, st = some hd.timestamp ∧
        ∀ e ∈ cur, e.project_hash = hd.project_hash ∧
          hd.timestamp ≤ e.timestamp ∧
          e.timestamp ≤ hd.timestamp + config.capture.sequence_window * 60 * 1000) →
      (cur = [] → st = none) →
      (∀ g ∈ (events.foldl (groupStep config) (episodes, cur, st)).1,
        config.capture.min_sequence_length ≤ g.length ∧
        ∀ hd ∈ g.head?, ∀ e ∈ g, e.project_hash = hd.project_hash ∧
          hd.timestamp ≤ e.timestamp ∧
          e.timestamp ≤ hd.timestamp + config.capture.sequence_window * 60 * 1000) ∧
      (∀ hd ∈ (events.foldl (groupStep config) (episodes, cur, st)).2.1.head?,
        ∀ e ∈ (events.foldl (groupStep config) (episodes, cur, st)).2.1,
          e.project_hash = hd.project_hash ∧
          hd.timestamp ≤ e.timestamp ∧
          e.timestamp ≤ hd.timestamp + config.capture.sequence_window * 60 * 1000) := by
  intro events
  induction events with
  | nil =>
    intro episodes cur st _ _ heps hcur _
    exact ⟨heps, fun hd hhd => (hcur hd hhd).2⟩
  | cons ev rest ih =>
    intro episodes cur st hpair hfuture heps hcur hemp
    have hW : (0 : Int) ≤ config.capture.sequence_window * 60 * 1000 := by positivity
    have hpair' : List.Pairwise (fun a b => a.timestamp ≤ b.timestamp) rest :=
      (List.pairwise_cons.mp hpair).2
    have hevrest : ∀ f ∈ rest, ev.timestamp ≤ f.timestamp :=
      (List.pairwise_cons.mp hpair).1
    rw [List.foldl_cons]
    rcases groupStep_close_or_extend config episodes cur st ev with hcase | ⟨hcase, hst, hgap, hproj⟩
    · rw [hcase]
      refine ih _ _ _ hpair' ?_ ?_ ?_ ?_
      · intro e he f hf
        have he' : e = ev := by simpa using he
        rw [he']
        exact hevrest f hf
      · intro g hg
        by_cases hmin : config.capture.min_sequence_length ≤ cur.length
        · rw [if_pos hmin] at hg
          rcases List.mem_append.mp hg with hg | hg
          · exact heps g hg
          · have hg' : g = cur := by simpa using hg
            rw [hg']
            exact ⟨hmin, fun hd hhd => (hcur hd hhd).2⟩
        · rw [if_neg hmin] at hg
          exact heps g hg
      · intro hd hhd
        have hhd' : hd = ev := by simpa using hhd.symm
        refine ⟨by rw [hhd'], ?_⟩
        intro e he
        have he' : e = ev := by simpa using he
        refine ⟨by rw [hhd', he'], by rw [hhd', he'], ?_⟩
        rw [hhd', he']
        linarith
      · intro h
        simp at h
    · rw [hcase]
      cases cur with
      | nil =>
        exact absurd (show st.getD 0 = 0 by rw [hemp rfl]; rfl) hst
      | cons h t =>
        have hinv := hcur h rfl
        have hsth : st = some h.timestamp := hinv.1
        refine ih _ _ _ hpair' ?_ heps ?_ ?_
        · intro e he f hf
          rcases List.mem_append.mp he with he | he
          · exact hfuture e he f (List.mem_cons_of_mem ev hf)
          · have he' : e = ev := by simpa using he
            rw [he']
            exact hevrest f hf
        · intro hd hhd
          have hhd' : hd = h := by simpa using hhd.symm
          refine ⟨by rw [hhd']; exact hsth, ?_⟩
          intro e he
          rcases List.mem_append.mp he with he | he
          · rw [hhd']
            exact hinv.2 e he
          · have he' : e = ev := by simpa using he
            rw [hhd', he']
            refine ⟨hproj h rfl, hfuture h (List.mem_cons_self h t) ev
              (List.mem_cons_self ev rest), ?_⟩
            rw [hsth] at hgap
            simp only [Option.getD_some] at hgap
            linarith
        · intro hcontra
          simp at hcontra

/-- C9: under a chronologically sorted event stream and a non-negative window,
every group returned by groupEventsIntoEpisodes reaches the configured minimum
sequence length, and all its events carry the project hash of the first event
of the group and have timestamps inside the window starting at the first
event of the group. -/
theorem groupEventsIntoEpisodes_group_invariant :
    ∀ (config : Config) (events : List TerminalEvent),
      0 ≤ config.capture.sequence_window →
      List.Pairwise (fun a b => a.timestamp ≤ b.timestamp) events →
      ∀ g ∈ groupEventsIntoEpisodes config events,
        config.capture.min_sequence_length ≤ g.length ∧
        ∀ hd ∈ g.head?, ∀ e ∈ g,
          e.project_hash = hd.project_hash ∧
          hd.timestamp ≤ e.timestamp ∧
          e.timestamp ≤ hd.timestamp + config.capture.sequence_window * 60 * 1000 := by
  intro config events hw hpair g hg
  unfold groupEventsIntoEpisodes at hg
  by_cases hlen : events.length = 0
  · rw [if_pos hlen] at hg
    simp at hg
  · rw [if_neg hlen] at hg
    have hfold := groupFold_invariant config hw events [] [] none hpair
      (by intro e he; simp at he) (by intro g hg; simp at hg)
      (by intro hd hhd; simp at hhd) (fun _ => rfl)
    by_cases hmin : config.capture.min_sequence_length ≤
        (events.foldl (groupStep config) ([], [], none)).2.1.length
    · rw [if_pos hmin] at hg
      rcases List.mem_append.mp hg with hg | hg
      · exact hfold.1 g hg
      · have : g = (events.foldl (groupStep config) ([], [], none)).2.1 := by simpa using hg
        subst this
        exact ⟨hmin, hfold.2⟩
    · rw [if_neg hmin] at hg
      exact hfold.1 g hg

/-- Witness for C9: the invariant instantiated on the 5-event scenario, at the
group it returns, its head, and its last event. -/
theorem groupEventsIntoEpisodes_group_invariant_witness :
    cfgWin5Min3.capture.min_sequence_length ≤ fiveEvents.length ∧
    ((⟨5000, "projA"⟩ : TerminalEvent).project_hash =
        (⟨1000, "projA"⟩ : TerminalEvent).project_hash ∧
      (⟨1000, "projA"⟩ : TerminalEvent).timestamp ≤
        (⟨5000, "projA"⟩ : TerminalEvent).timestamp ∧
      (⟨5000, "projA"⟩ : TerminalEvent).timestamp ≤
        (⟨1000, "projA"⟩ : TerminalEvent).timestamp +
          cfgWin5Min3.capture.sequence_window * 60 * 1000) :=
  ⟨(groupEventsIntoEpisodes_group_invariant cfgWin5Min3 fiveEvents (by decide) (by decide)
      fiveEvents (by decide)).1,
   (groupEventsIntoEpisodes_group_invariant cfgWin5Min3 fiveEvents (by decide) (by decide)
      fiveEvents (by decide)).2 ⟨1000, "projA"⟩ rfl ⟨5000, "projA"⟩ (by decide)⟩

/-- The fold underlying groupEventsIntoEpisodes cuts the processed events into
contiguous segments: the closed segments joined with the open group give back
the already-processed input, and the accumulated episodes are exactly the
closed segments that reach the minimum length. -/
theorem groupFold_segments (config : Config) :
    ∀ (events : List TerminalEvent) (episodes : List (List TerminalEvent))
      (cur : List TerminalEvent) (st : Option Int) (closed : List (List TerminalEvent)),
      episodes = closed.filter
        (fun s => decide (config.capture.min_sequence_length ≤ s.length)) →
      ∃ closed' : List (List TerminalEvent),
        closed'.flatten ++ (events.foldl (groupStep config) (episodes, cur, st)).2.1 =
          closed.flatten ++ cur ++ events ∧
        (events.foldl (groupStep config) (episodes, cur, st)).1 =
          closed'.filter (fun s => decide (config.capture.min_sequence_length ≤ s.length)) := by
  intro events
  induction events with
  | nil =>
    intro episodes cur st closed heq
    exact ⟨closed, by simp, heq⟩
  | cons ev rest ih =>
    intro episodes cur st closed heq
    rw [List.foldl_cons]
    rcases groupStep_close_or_extend config episodes cur st ev with hcase | ⟨hcase, _, _, _⟩
    · rw [hcase]
      have heq' : (if config.capture.min_sequence_length ≤ cur.length
            then episodes ++ [cur] else episodes) =
          (closed ++ [cur]).filter
            (fun s => decide (config.capture.min_sequence_length ≤ s.length)) := by
        rw [List.filter_append, ← heq, List.filter_singleton]
        by_cases hmin : config.capture.min_sequence_length ≤ cur.length
        · simp [hmin]
        · simp [hmin]
      rcases ih _ [ev] (some ev.timestamp) (closed ++ [cur]) heq' with ⟨closed', h1, h2⟩
      refine ⟨closed', ?_, h2⟩
      rw [h1, List.flatten_append]
      simp
    · rw [hcase]
      rcases ih _ (cur ++ [ev]) st closed heq with ⟨closed', h1, h2⟩
      refine ⟨closed', ?_, h2⟩
      rw [h1]
      simp

/-- C10: the groups returned by groupEventsIntoEpisodes are pairwise disjoint
contiguous subsequences of the input in original order: there is a cut of the
input into consecutive segments such that the result is exactly the segments
reaching the minimum length (so every input position lands in at most one
group and order is preserved), and every returned group is an infix of the
input. -/
theorem groupEventsIntoEpisodes_partition :
    ∀ (config : Config) (events : List TerminalEvent),
      (∃ segs : List (List TerminalEvent),
        segs.flatten = events ∧
        groupEventsIntoEpisodes config events =
          segs.filter (fun s => decide (config.capture.min_sequence_length ≤ s.length))) ∧
      ∀ g ∈ groupEventsIntoEpisodes config events, g <:+: events := by
  intro config events
  have hmain : ∃ segs : List (List TerminalEvent),
      segs.flatten = events ∧
      groupEventsIntoEpisodes config events =
        segs.filter (fun s => decide (config.capture.min_sequence_length ≤ s.length)) := by
    unfold groupEventsIntoEpisodes
    by_cases hlen : events.length = 0
    · rw [if_pos hlen]
      refine ⟨[], ?_, rfl⟩
      simpa using (List.length_eq_zero.mp hlen).symm
    · rw [if_neg hlen]
      rcases groupFold_segments config events [] [] none [] rfl with ⟨closed', h1, h2⟩
      refine ⟨closed' ++ [(events.foldl (groupStep config) ([], [], none)).2.1], ?_, ?_⟩
      · rw [List.flatten_append]
        simpa using h1
      · rw [List.filter_append, ← h2, List.filter_singleton]
        by_cases hmin : config.capture.min_sequence_length ≤
            (events.foldl (groupStep config) ([], [], none)).2.1.length
        · simp [hmin]
        · simp [hmin]
  refine ⟨hmain, ?_⟩
  rcases hmain with ⟨segs, hflat, heq⟩
  intro g hg
  rw [heq] at hg
  have := List.infix_of_mem_flatten (List.mem_of_mem_filter hg)
  rwa [hflat] at this

/-- Witness for C10: the infix property instantiated on the 5-event scenario. -/
theorem groupEventsIntoEpisodes_partition_witness :
    fiveEvents <:+: fiveEvents :=
  (groupEventsIntoEpisodes_partition cfgWin5Min3 fiveEvents).2 fiveEvents (by decide)

/-- Inserting into the sorted-token accumulator grows its length by one. -/
theorem insertCharList_length (x : List Char) (l : List (List Char)) :
    (insertCharList x l).length = l.length + 1 := by
  induction l with
  | nil => rfl
  | cons y ys ih =>
    unfold insertCharList
    split
    · rfl
    · simp [ih]

/-- The token sort preserves length. -/
theorem sortCharLists_length (l : List (List Char)) : (sortCharLists l).length = l.length := by
  induction l with
  | nil => rfl
  | cons y ys ih =>
    unfold sortCharLists at ih ⊢
    rw [List.foldr_cons, insertCharList_length, ih]
    rfl

/-- On a duplicate-free list, counting the elements that also occur in a second
list computes the cardinality of the intersection of the two element sets. -/
theorem filter_mem_length_eq_inter_card (A B : List (List Char)) (h : A.Nodup) :
    (A.filter (fun a => decide (a ∈ B))).length = (A.toFinset ∩ B.toFinset).card := by
  rw [← List.toFinset_card_of_nodup (List.Nodup.filter _ h), List.toFinset_filter]
  congr 1
  rw [← Finset.filter_mem_eq_inter]
  apply Finset.filter_congr
  intro x _
  simp

/-- Deduplicating the concatenation of two lists counts the cardinality of the
union of their element sets. -/
theorem dedup_append_length_eq_union_card (A B : List (List Char)) :
    ((A ++ B).dedup).length = (A.toFinset ∪ B.toFinset).card := by
  rw [← List.card_toFinset, List.toFinset_append]

/-- commandSimilarity returns 0 when both commands are truthy but their first
tokens differ. -/
theorem commandSimilarity_base_mismatch (cmd1 cmd2 : String)
    (h1 : cmd1 ≠ "") (h2 : cmd2 ≠ "")
    (hhead : (normalizeCommand cmd1).headD [] ≠ (normalizeCommand cmd2).headD []) :
    commandSimilarity cmd1 cmd2 = 0 := by
  unfold commandSimilarity
  dsimp only
  rw [if_neg (not_or.mpr ⟨h1, h2⟩), if_neg hhead]

/-- commandSimilarity returns 1 when the first tokens match and neither command
has further tokens. -/
theorem commandSimilarity_base_only (cmd1 cmd2 : String)
    (h1 : cmd1 ≠ "") (h2 : cmd2 ≠ "")
    (hhead : (normalizeCommand cmd1).headD [] = (normalizeCommand cmd2).headD [])
    (hd1 : (normalizeCommand cmd1).drop 1 = [])
    (hd2 : (normalizeCommand cmd2).drop 1 = []) :
    commandSimilarity cmd1 cmd2 = 1 := by
  unfold commandSimilarity
  dsimp only
  rw [if_neg (not_or.mpr ⟨h1, h2⟩), if_pos hhead, hd1, hd2]
  rw [if_pos ⟨rfl, rfl⟩]

/-- commandSimilarity in the argument-bearing case returns the count of
first-command argument tokens present among the second-command argument
tokens, divided by the number of distinct argument tokens overall. -/
theorem commandSimilarity_args (cmd1 cmd2 : String)
    (h1 : cmd1 ≠ "") (h2 : cmd2 ≠ "")
    (hhead : (normalizeCommand cmd1).headD [] = (normalizeCommand cmd2).headD [])
    (hne : ¬((normalizeCommand cmd1).drop 1 = [] ∧ (normalizeCommand cmd2).drop 1 = [])) :
    commandSimilarity cmd1 cmd2 =
      (((sortCharLists ((normalizeCommand cmd1).drop 1)).filter
          (fun arg => decide (arg ∈ sortCharLists ((normalizeCommand cmd2).drop 1)))).length : ℝ) /
        (((sortCharLists ((normalizeCommand cmd1).drop 1) ++
            sortCharLists ((normalizeCommand cmd2).drop 1)).dedup).length : ℝ) := by
  unfold commandSimilarity
  dsimp only
  rw [if_neg (not_or.mpr ⟨h1, h2⟩), if_pos hhead, if_neg ?hc]
  case hc =>
    intro hcon
    apply hne
    constructor
    · have := hcon.1
      rw [sortCharLists_length] at this
      exact List.length_eq_zero.mp this
    · have := hcon.2
      rw [sortCharLists_length] at this
      exact List.length_eq_zero.mp this

/-- commandSimilarity on the two spec example commands evaluates to one half:
the first tokens are just git, the argument token lists are commit, -m, x and
commit, -m, y, two of three first-command arguments recur, and there are four
distinct argument tokens overall. -/
theorem commandSimilarity_git_example :
    commandSimilarity "git commit -m x" "git commit -m y" = 1 / 2 := by
  rw [commandSimilarity_args "git commit -m x" "git commit -m y"
    (by decide) (by decide) (by decide) (by decide)]
  rw [show ((sortCharLists ((normalizeCommand "git commit -m x").drop 1)).filter
      (fun arg => decide (arg ∈ sortCharLists ((normalizeCommand "git commit -m y").drop 1)))).length
      = 2 from by decide]
  rw [show ((sortCharLists ((normalizeCommand "git commit -m x").drop 1) ++
      sortCharLists ((normalizeCommand "git commit -m y").drop 1)).dedup).length = 4 from by decide]
  norm_num

/-- Counterexample for C3: on the spec example the code yields 1/2, not 1/3,
because the base token is only the first whitespace token (git), so commit
counts as a shared argument token. -/
theorem commandSimilarity_not_one_third_counterexample :
    commandSimilarity "git commit -m x" "git commit -m y" ≠ 1 / 3 := by
  rw [commandSimilarity_git_example]
  norm_num

/-- C3 (amended): commandSimilarity normalizes both commands (lowercase, trim,
split on whitespace); it returns 0 when the first tokens differ, 1 when the
first tokens match and neither command has further tokens, and otherwise the
count of first-command argument tokens occurring among the second-command
argument tokens divided by the number of distinct argument tokens, which for
duplicate-free argument lists is the Jaccard similarity of the argument-token
sets; in particular commandSimilarity of git commit -m x and git commit -m y
is the Jaccard of the sets containing commit, -m, x and commit, -m, y, namely
2/4 = 1/2 (not 1/3: commit counts as an argument, not as part of the base). -/
theorem commandSimilarity_spec_amended :
    (∀ cmd1 cmd2 : String, cmd1 ≠ "" → cmd2 ≠ "" →
      (normalizeCommand cmd1).headD [] ≠ (normalizeCommand cmd2).headD [] →
      commandSimilarity cmd1 cmd2 = 0) ∧
    (∀ cmd1 cmd2 : String, cmd1 ≠ "" → cmd2 ≠ "" →
      (normalizeCommand cmd1).headD [] = (normalizeCommand cmd2).headD [] →
      (normalizeCommand cmd1).drop 1 = [] → (normalizeCommand cmd2).drop 1 = [] →
      commandSimilarity cmd1 cmd2 = 1) ∧
    (∀ cmd1 cmd2 : String, cmd1 ≠ "" → cmd2 ≠ "" →
      (normalizeCommand cmd1).headD [] = (normalizeCommand cmd2).headD [] →
      ¬((normalizeCommand cmd1).drop 1 = [] ∧ (normalizeCommand cmd2).drop 1 = []) →
      (sortCharLists ((normalizeCommand cmd1).drop 1)).Nodup →
      commandSimilarity cmd1 cmd2 =
        (((sortCharLists ((normalizeCommand cmd1).drop 1)).toFinset ∩
            (sortCharLists ((normalizeCommand cmd2).drop 1)).toFinset).card : ℝ) /
          (((sortCharLists ((normalizeCommand cmd1).drop 1)).toFinset ∪
            (sortCharLists ((normalizeCommand cmd2).drop 1)).toFinset).card : ℝ)) ∧
    commandSimilarity "git commit -m x" "git commit -m y" = 1 / 2 := by
  refine ⟨commandSimilarity_base_mismatch, commandSimilarity_base_only, ?_,
    commandSimilarity_git_example⟩
  intro cmd1 cmd2 h1 h2 hhead hne hnodup
  rw [commandSimilarity_args cmd1 cmd2 h1 h2 hhead hne]
  rw [filter_mem_length_eq_inter_card _ _ hnodup, dedup_append_length_eq_union_card]

/-- Witness for C3: the amended characterization applied to concrete commands
in each hypothesis-bearing case. -/
theorem commandSimilarity_spec_amended_witness :
    commandSimilarity "git status" "npm test" = 0 ∧
    commandSimilarity "Git " "git" = 1 ∧
    commandSimilarity "git commit -m x" "git commit -m y" = 1 / 2 := by
  refine ⟨commandSimilarity_spec_amended.1 "git status" "npm test"
      (by decide) (by decide) (by decide),
    commandSimilarity_spec_amended.2.1 "Git " "git" (by decide) (by decide)
      (by decide) (by decide) (by decide), ?_⟩
  rw [commandSimilarity_spec_amended.2.2.1 "git commit -m x" "git commit -m y"
    (by decide) (by decide) (by decide) (by decide) (by decide)]
  rw [show ((sortCharLists ((normalizeCommand "git commit -m x").drop 1)).toFinset ∩
      (sortCharLists ((normalizeCommand "git commit -m y").drop 1)).toFinset).card = 2 from
      by decide]
  rw [show ((sortCharLists ((normalizeCommand "git commit -m x").drop 1)).toFinset ∪
      (sortCharLists ((normalizeCommand "git commit -m y").drop 1)).toFinset).card = 4 from
      by decide]
  norm_num

/-- findNextStep yields nothing when no step other than the last contains the
command. -/
theorem findNextStep_eq_none (cmd : List Char) :
    ∀ steps : List (List Char),
      (∀ (j : Nat) (sj : List Char), j + 1 < steps.length → steps[j]? = some sj →
        containsChars (trimChars sj) cmd = false) →
      findNextStep cmd steps = none := by
  intro steps
  induction steps with
  | nil => intro _; rfl
  | cons s rest ih =>
    intro h
    cases rest with
    | nil => rfl
    | cons b rest' =>
      unfold findNextStep
      rw [h 0 s (by simp) rfl]
      simp only [Bool.false_eq_true, if_false]
      apply ih
      intro j sj hj hsj
      exact h (j + 1) sj (by simpa using hj) (by simpa using hsj)

/-- findNextStep returns the trimmed step after the first matching non-final
step. -/
theorem findNextStep_first_match (cmd : List Char) :
    ∀ (steps : List (List Char)) (i : Nat) (s t : List Char),
      steps[i]? = some s → steps[i + 1]? = some t →
      containsChars (trimChars s) cmd = true →
      (∀ (j : Nat) (sj : List Char), j < i → steps[j]? = some sj →
        containsChars (trimChars sj) cmd = false) →
      findNextStep cmd steps = some (trimChars t) := by
  intro steps
  induction steps with
  | nil =>
    intro i s t hs _ _ _
    simp at hs
  | cons a rest ih =>
    intro i s t hs ht hmatch hprev
    cases rest with
    | nil =>
      rcases Nat.lt_or_ge (i + 1) 1 with h1 | h1
      · omega
      · have : (1 : Nat) ≤ i + 1 := h1
        simp [List.getElem?_eq_none (by simpa using this : ([a] : List (List Char)).length ≤ i + 1)] at ht
    | cons b rest' =>
      cases i with
      | zero =>
        have hsa : a = s := by simpa using hs
        have htb : b = t := by simpa using ht
        unfold findNextStep
        rw [hsa, hmatch]
        simp [htb]
      | succ k =>
        have h0 : containsChars (trimChars a) cmd = false :=
          hprev 0 a (Nat.succ_pos k) rfl
        unfold findNextStep
        rw [h0]
        simp only [Bool.false_eq_true, if_false]
        apply ih k s t (by simpa using hs) (by simpa using ht) hmatch
        intro j sj hj hsj
        exact hprev (j + 1) sj (by omega) (by simpa using hsj)

/-- Counterexample for C8: a memory whose fix is the empty string contains no
step separator, yet suggestNextCommand returns null, not the fix verbatim
(the code treats a falsy fix like a missing one). -/
theorem suggestNextCommand_empty_fix_counterexample :
    suggestNextCommand ⟨7, "projA", some "", none, 0, 0, false⟩
        ⟨none, none, none, "projA", 0, false, false, false⟩ = none ∧
    (none : Option String) ≠ some "" := by
  exact ⟨rfl, by simp⟩

/-- C8 (amended): given a top memory whose fix is NON-EMPTY and contains no
step separator, suggestNextCommand returns the fix verbatim (an empty fix is
falsy and yields null); otherwise it splits the fix on the separator into
ordered steps and, if the trimmed text of some step contains the current
non-empty command and that step is not the last, returns the step following
the first such step, trimmed; if the command is missing or empty, matches no
step, or matches only the last step, it returns the first step trimmed. -/
theorem suggestNextCommand_spec_amended :
    (∀ (memory : ScoredMemory) (context : Context) (fix : String),
      memory.fix = some fix → fix ≠ "" → containsChars fix.data ['→'] = false →
      suggestNextCommand memory context = some fix) ∧
    (∀ (memory : ScoredMemory) (context : Context) (fix cmd : String),
      memory.fix = some fix → containsChars fix.data ['→'] = true →
      context.command = some cmd → cmd ≠ "" →
      ∀ (i : Nat) (s t : List Char),
        (splitOnChar '→' fix.data [])[i]? = some s →
        (splitOnChar '→' fix.data [])[i + 1]? = some t →
        containsChars (trimChars s) cmd.data = true →
        (∀ (j : Nat) (sj : List Char), j < i →
          (splitOnChar '→' fix.data [])[j]? = some sj →
          containsChars (trimChars sj) cmd.data = false) →
        suggestNextCommand memory context = some (String.mk (trimChars t))) ∧
    (∀ (memory : ScoredMemory) (context : Context) (fix cmd : String),
      memory.fix = some fix → containsChars fix.data ['→'] = true →
      context.command = some cmd → cmd ≠ "" →
      (∀ (j : Nat) (sj : List Char), j + 1 < (splitOnChar '→' fix.data []).length →
        (splitOnChar '→' fix.data [])[j]? = some sj →
        containsChars (trimChars sj) cmd.data = false) →
      suggestNextCommand memory context =
        some (String.mk (trimChars ((splitOnChar '→' fix.data []).headD [])))) ∧
    (∀ (memory : ScoredMemory) (context : Context) (fix : String),
      memory.fix = some fix → containsChars fix.data ['→'] = true →
      jsTruthy context.command = false →
      suggestNextCommand memory context =
        some (String.mk (trimChars ((splitOnChar '→' fix.data []).headD [])))) := by
  have hne_of_contains : ∀ fix : String, containsChars fix.data ['→'] = true → fix ≠ "" := by
    intro fix hc hfix
    rw [hfix] at hc
    simp [containsChars, List.isPrefixOf] at hc
  refine ⟨?_, ?_, ?_, ?_⟩
  · intro memory context fix hfix hne hnosep
    unfold suggestNextCommand
    rw [hfix]
    simp only
    rw [if_neg hne, if_pos hnosep]
  · intro memory context fix cmd hfix hsep hcmd hcmdne i s t hs ht hmatch hprev
    unfold suggestNextCommand
    rw [hfix]
    simp only
    rw [if_neg (hne_of_contains fix hsep), if_neg (by rw [hsep]; simp)]
    have htruthy : jsTruthy context.command = true := by
      rw [hcmd]
      simpa [jsTruthy] using hcmdne
    rw [htruthy]
    simp only [if_true]
    rw [hcmd]
    simp only [Option.getD_some]
    rw [findNextStep_first_match cmd.data (splitOnChar '→' fix.data []) i s t hs ht hmatch hprev]
  · intro memory context fix cmd hfix hsep hcmd hcmdne hnomatch
    unfold suggestNextCommand
    rw [hfix]
    simp only
    rw [if_neg (hne_of_contains fix hsep), if_neg (by rw [hsep]; simp)]
    have htruthy : jsTruthy context.command = true := by
      rw [hcmd]
      simpa [jsTruthy] using hcmdne
    rw [htruthy]
    simp only [if_true]
    rw [hcmd]
    simp only [Option.getD_some]
    rw [findNextStep_eq_none cmd.data (splitOnChar '→' fix.data []) hnomatch]
  · intro memory context fix hfix hsep hfalsy
    unfold suggestNextCommand
    rw [hfix]
    simp only
    rw [if_neg (hne_of_contains fix hsep), if_neg (by rw [hsep]; simp)]
    rw [hfalsy]
    simp only [Bool.false_eq_true, if_false]

/-- Witness for C8: the amended characterization on a concrete three-step
workflow, exercising the verbatim, next-step, first-step-default and missing
command cases. -/
theorem suggestNextCommand_spec_amended_witness :
    suggestNextCommand ⟨1, "projA", some "npm install", none, 0, 0, false⟩
        ⟨some "npm", none, none, "projA", 0, false, false, false⟩ = some "npm install" ∧
    suggestNextCommand ⟨2, "projA", some "git add . → git commit → git push", none, 0, 0, false⟩
        ⟨some "git commit", none, none, "projA", 0, false, false, false⟩ =
      some (String.mk (trimChars " git push".data)) ∧
    suggestNextCommand ⟨3, "projA", some "git add . → git commit → git push", none, 0, 0, false⟩
        ⟨some "docker build", none, none, "projA", 0, false, false, false⟩ =
      some (String.mk (trimChars
        ((splitOnChar '→' "git add . → git commit → git push".data []).headD []))) ∧
    suggestNextCommand ⟨4, "projA", some "git add . → git commit → git push", none, 0, 0, false⟩
        ⟨none, none, none, "projA", 0, false, false, false⟩ =
      some (String.mk (trimChars
        ((splitOnChar '→' "git add . → git commit → git push".data []).headD []))) := by
  refine ⟨suggestNextCommand_spec_amended.1 _ _ "npm install" rfl (by decide) (by decide),
    suggestNextCommand_spec_amended.2.1 _ _ "git add . → git commit → git push" "git commit"
      rfl (by decide) rfl (by decide) 1 " git commit ".data " git push".data
      (by decide) (by decide) (by decide) ?_,
    suggestNextCommand_spec_amended.2.2.1 _ _ "git add . → git commit → git push" "docker build"
      rfl (by decide) rfl (by decide) ?_,
    suggestNextCommand_spec_amended.2.2.2 _ _ "git add . → git commit → git push"
      rfl (by decide) rfl⟩
  · intro j sj hj hsj
    have hj0 : j = 0 := by omega
    subst hj0
    rw [show (splitOnChar '→' "git add . → git commit → git push".data [])[0]? =
      some "git add . ".data from by decide] at hsj
    rw [← Option.some.inj hsj]
    decide
  · intro j sj hj hsj
    have hlen : (splitOnChar '→' "git add . → git commit → git push".data []).length = 3 := by
      decide
    rw [hlen] at hj
    have hj01 : j = 0 ∨ j = 1 := by omega
    rcases hj01 with rfl | rfl
    · rw [show (splitOnChar '→' "git add . → git commit → git push".data [])[0]? =
        some "git add . ".data from by decide] at hsj
      rw [← Option.some.inj hsj]
      decide
    · rw [show (splitOnChar '→' "git add . → git commit → git push".data [])[1]? =
        some " git commit ".data from by decide] at hsj
      rw [← Option.some.inj hsj]
      decide

/-- The accumulated squared norm of a vector is non-negative. -/
theorem dotList_self_nonneg (a : List ℝ) : 0 ≤ dotList a a := by
  induction a with
  | nil => simp [dotList]
  | cons x xs ih =>
    simp only [dotList, List.zipWith_cons_cons, List.sum_cons] at ih ⊢
    nlinarith [mul_self_nonneg x]

/-- The accumulated squared norm vanishes exactly on the zero vector. -/
theorem dotList_self_eq_zero_iff (a : List ℝ) : dotList a a = 0 ↔ ∀ x ∈ a, x = 0 := by
  induction a with
  | nil => simp [dotList]
  | cons x xs ih =>
    simp only [dotList, List.zipWith_cons_cons, List.sum_cons] at ih ⊢
    rw [add_eq_zero_iff_of_nonneg (mul_self_nonneg x) (by simpa [dotList] using dotList_self_nonneg xs)]
    rw [mul_self_eq_zero, ih]
    constructor
    · rintro ⟨h1, h2⟩ y hy
      rcases List.mem_cons.mp hy with rfl | hy
      · exact h1
      · exact h2 y hy
    · intro h
      exact ⟨h x (List.mem_cons_self x xs), fun y hy => h y (List.mem_cons_of_mem x hy)⟩

/-- The dot product with a zero vector on the left vanishes. -/
theorem dotList_zero_left : ∀ (a b : List ℝ), (∀ x ∈ a, x = 0) → dotList a b = 0 := by
  intro a
  induction a with
  | nil => intro b _; simp [dotList]
  | cons x xs ih =>
    intro b h
    cases b with
    | nil => simp [dotList]
    | cons y ys =>
      simp only [dotList, List.zipWith_cons_cons, List.sum_cons]
      rw [h x (List.mem_cons_self x xs), zero_mul, zero_add]
      exact ih ys (fun z hz => h z (List.mem_cons_of_mem x hz))

/-- The dot product is symmetric. -/
theorem dotList_comm : ∀ (a b : List ℝ), dotList a b = dotList b a := by
  intro a
  induction a with
  | nil => intro b; cases b <;> simp [dotList]
  | cons x xs ih =>
    intro b
    cases b with
    | nil => simp [dotList]
    | cons y ys =>
      simp only [dotList, List.zipWith_cons_cons, List.sum_cons] at ih ⊢
      rw [mul_comm x y]
      have := ih ys
      simp only [dotList] at this
      rw [this]

/-- Expanding the dot product over a pair of cons cells. -/
theorem dotList_cons (x y : ℝ) (xs ys : List ℝ) :
    dotList (x :: xs) (y :: ys) = x * y + dotList xs ys := by
  simp [dotList]

/-- Cauchy-Schwarz for the list dot product. -/
theorem dotList_sq_le (a : List ℝ) : ∀ b : List ℝ,
    (dotList a b) ^ 2 ≤ dotList a a * dotList b b := by
  induction a with
  | nil => intro b; simp [dotList]
  | cons x xs ih =>
    intro b
    cases b with
    | nil => simp [dotList]
    | cons y ys =>
      have hA := dotList_self_nonneg xs
      have hB := dotList_self_nonneg ys
      have hS := ih ys
      rw [dotList_cons, dotList_cons, dotList_cons]
      rcases eq_or_lt_of_le hB with hB0 | hBpos
      · have hS2 : dotList xs ys ^ 2 ≤ 0 := by
          rw [← hB0, mul_zero] at hS
          exact hS
        have hS0 : dotList xs ys = 0 :=
          (pow_eq_zero_iff two_ne_zero).mp (le_antisymm hS2 (sq_nonneg _))
        rw [hS0, ← hB0]
        nlinarith [mul_nonneg hA (mul_self_nonneg y), mul_self_nonneg x]
      · nlinarith [sq_nonneg (x * dotList ys ys - y * dotList xs ys),
          mul_nonneg (by nlinarith [mul_self_nonneg y] :
              (0 : ℝ) ≤ y * y + dotList ys ys)
            (by nlinarith : (0 : ℝ) ≤ dotList xs xs * dotList ys ys - dotList xs ys ^ 2),
          hBpos]

/-- C4: cosineSimilarity on equal-length vectors computes the normalized dot
product and always lies in the interval from -1 to 1 (when either norm is 0
the code returns 0, which agrees with the formula because division by zero is
zero and a zero norm forces a zero dot product); on any non-zero vector with
itself it is 1; a zero vector against anything of equal length gives 0; and
unequal lengths yield the dimension-mismatch error. -/
theorem cosineSimilarity_spec :
    (∀ a b : List ℝ, a.length = b.length →
      cosineSimilarity a b = Except.ok (dotList a b /
        (Real.sqrt (dotList a a) * Real.sqrt (dotList b b))) ∧
      ∀ r : ℝ, cosineSimilarity a b = Except.ok r → -1 ≤ r ∧ r ≤ 1) ∧
    (∀ a : List ℝ, (∃ x ∈ a, x ≠ 0) → cosineSimilarity a a = Except.ok 1) ∧
    (∀ a b : List ℝ, a.length = b.length → (∀ x ∈ a, x = 0) →
      cosineSimilarity a b = Except.ok 0) ∧
    (∀ a b : List ℝ, a.length ≠ b.length →
      cosineSimilarity a b = Except.error "Vectors must have the same dimension") := by
  have hmain : ∀ a b : List ℝ, a.length = b.length →
      cosineSimilarity a b = Except.ok (dotList a b /
        (Real.sqrt (dotList a a) * Real.sqrt (dotList b b))) := by
    intro a b hlen
    unfold cosineSimilarity
    rw [if_neg (not_not_intro hlen)]
    dsimp only
    by_cases hz : Real.sqrt (dotList a a) = 0 ∨ Real.sqrt (dotList b b) = 0
    · rw [if_pos hz]
      have hdot : dotList a b = 0 := by
        rcases hz with hz | hz
        · have h0 : dotList a a = 0 :=
            le_antisymm (Real.sqrt_eq_zero'.mp hz) (dotList_self_nonneg a)
          exact dotList_zero_left a b ((dotList_self_eq_zero_iff a).mp h0)
        · have h0 : dotList b b = 0 :=
            le_antisymm (Real.sqrt_eq_zero'.mp hz) (dotList_self_nonneg b)
          rw [dotList_comm a b]
          exact dotList_zero_left b a ((dotList_self_eq_zero_iff b).mp h0)
      rw [hdot, zero_div]
    · rw [if_neg hz]
  refine ⟨fun a b hlen => ⟨hmain a b hlen, ?_⟩, ?_, ?_, ?_⟩
  · intro r hr
    rw [hmain a b hlen] at hr
    have hr' := Except.ok.inj hr
    by_cases hz : Real.sqrt (dotList a a) * Real.sqrt (dotList b b) = 0
    · rw [← hr', hz, div_zero]
      norm_num
    · have hA := Real.sqrt_nonneg (dotList a a)
      have hB := Real.sqrt_nonneg (dotList b b)
      have hpos : 0 < Real.sqrt (dotList a a) * Real.sqrt (dotList b b) :=
        lt_of_le_of_ne (mul_nonneg hA hB) (Ne.symm hz)
      have habs : |dotList a b| ≤ Real.sqrt (dotList a a) * Real.sqrt (dotList b b) := by
        rw [← Real.sqrt_mul (dotList_self_nonneg a)]
        rw [← Real.sqrt_sq_eq_abs]
        exact Real.sqrt_le_sqrt (dotList_sq_le a b)
      constructor
      · rw [← hr']
        rw [le_div_iff hpos]
        linarith [(abs_le.mp habs).1]
      · rw [← hr']
        rw [div_le_one hpos]
        exact (abs_le.mp habs).2
  · intro a ⟨x, hx, hxne⟩
    have hApos : 0 < dotList a a := by
      rcases lt_or_eq_of_le (dotList_self_nonneg a) with h | h
      · exact h
      · exact absurd ((dotList_self_eq_zero_iff a).mp h.symm x hx) hxne
    have hsq : Real.sqrt (dotList a a) ≠ 0 := ne_of_gt (Real.sqrt_pos.mpr hApos)
    unfold cosineSimilarity
    rw [if_neg (not_not_intro rfl)]
    dsimp only
    rw [if_neg (by push_neg; exact ⟨hsq, hsq⟩)]
    rw [Real.mul_self_sqrt (le_of_lt hApos), div_self (ne_of_gt hApos)]
  · intro a b hlen hzero
    unfold cosineSimilarity
    rw [if_neg (not_not_intro hlen)]
    dsimp only
    rw [if_pos (Or.inl (by rw [(dotList_self_eq_zero_iff a).mpr hzero, Real.sqrt_zero]))]
  · intro a b hlen
    unfold cosineSimilarity
    rw [if_pos hlen]

/-- Witness for C4: the cosine specification on concrete vectors, one case per
hypothesis: self-similarity 1 on a non-zero vector (with its bounds), 0 for a
zero vector, the explicit formula on equal lengths, and the error on a
dimension mismatch. -/
theorem cosineSimilarity_spec_witness :
    cosineSimilarity [(3 : ℝ), 4] [(3 : ℝ), 4] = Except.ok 1 ∧
    (-1 ≤ (1 : ℝ) ∧ (1 : ℝ) ≤ 1) ∧
    cosineSimilarity [(0 : ℝ), 0] [(1 : ℝ), 2] = Except.ok 0 ∧
    cosineSimilarity [(1 : ℝ), 0] [(0 : ℝ), 1] = Except.ok (dotList [(1 : ℝ), 0] [(0 : ℝ), 1] /
      (Real.sqrt (dotList [(1 : ℝ), 0] [(1 : ℝ), 0]) *
        Real.sqrt (dotList [(0 : ℝ), 1] [(0 : ℝ), 1]))) ∧
    cosineSimilarity [(1 : ℝ)] [(1 : ℝ), 2] =
      Except.error "Vectors must have the same dimension" := by
  refine ⟨?_, ?_, ?_, ?_, ?_⟩
  · exact cosineSimilarity_spec.2.1 [(3 : ℝ), 4] ⟨3, by simp, by norm_num⟩
  · exact (cosineSimilarity_spec.1 [(3 : ℝ), 4] [(3 : ℝ), 4] rfl).2 1
      (cosineSimilarity_spec.2.1 [(3 : ℝ), 4] ⟨3, by simp, by norm_num⟩)
  · exact cosineSimilarity_spec.2.2.1 [(0 : ℝ), 0] [(1 : ℝ), 2] rfl
      (by intro x hx; simpa using hx)
  · exact (cosineSimilarity_spec.1 [(1 : ℝ), 0] [(0 : ℝ), 1] rfl).1
  · exact cosineSimilarity_spec.2.2.2 [(1 : ℝ)] [(1 : ℝ), 2] (by simp)

/-- Inserting into the confidence-sorted accumulator is a permutation of
consing. -/
theorem insertByConfidence_perm (x : ScoredMemory) (l : List ScoredMemory) :
    (insertByConfidence x l).Perm (x :: l) := by
  induction l with
  | nil => exact List.Perm.refl _
  | cons y ys ih =>
    unfold insertByConfidence
    split
    · exact List.Perm.refl _
    · exact (ih.cons y).trans (List.Perm.swap x y ys)

/-- The confidence sort permutes its input. -/
theorem sortByConfidenceDesc_perm (l : List ScoredMemory) : (sortByConfidenceDesc l).Perm l := by
  induction l with
  | nil => exact List.Perm.refl _
  | cons x xs ih =>
    unfold sortByConfidenceDesc at ih ⊢
    rw [List.foldr_cons]
    exact (insertByConfidence_perm x _).trans (ih.cons x)

/-- Inserting into a descending-by-confidence list keeps it descending. -/
theorem insertByConfidence_pairwise (x : ScoredMemory) (l : List ScoredMemory)
    (h : List.Pairwise (fun p q => q.confidence ≤ p.confidence) l) :
    List.Pairwise (fun p q => q.confidence ≤ p.confidence) (insertByConfidence x l) := by
  induction l with
  | nil => simp [insertByConfidence]
  | cons y ys ih =>
    unfold insertByConfidence
    split
    · rename_i hyx
      refine List.Pairwise.cons ?_ h
      intro z hz
      rcases List.mem_cons.mp hz with rfl | hz
      · exact hyx
      · exact le_trans ((List.pairwise_cons.mp h).1 z hz) hyx
    · rename_i hyx
      push_neg at hyx
      have h' := List.pairwise_cons.mp h
      refine List.Pairwise.cons ?_ (ih h'.2)
      intro z hz
      have hz' := (insertByConfidence_perm x ys).mem_iff.mp hz
      rcases List.mem_cons.mp hz' with rfl | hz'
      · exact le_of_lt hyx
      · exact h'.1 z hz'

/-- The confidence sort yields a descending list. -/
theorem sortByConfidenceDesc_pairwise (l : List ScoredMemory) :
    List.Pairwise (fun p q => q.confidence ≤ p.confidence) (sortByConfidenceDesc l) := by
  induction l with
  | nil => simp [sortByConfidenceDesc]
  | cons x xs ih =>
    unfold sortByConfidenceDesc at ih ⊢
    rw [List.foldr_cons]
    exact insertByConfidence_pairwise x _ ih

/-- Filtering an insertion at one confidence value either prepends the new
element (when it carries that value) or leaves the filtered list unchanged:
the insertion point lies before exactly the strictly smaller elements. -/
theorem insertByConfidence_filter_key (c : ℝ) (x : ScoredMemory) (l : List ScoredMemory) :
    (insertByConfidence x l).filter (fun m => decide (m.confidence = c)) =
      if x.confidence = c then
        x :: l.filter (fun m => decide (m.confidence = c))
      else l.filter (fun m => decide (m.confidence = c)) := by
  induction l with
  | nil =>
    by_cases hx : x.confidence = c
    · simp [insertByConfidence, List.filter, hx]
    · simp [insertByConfidence, List.filter, hx]
  | cons y ys ih =>
    unfold insertByConfidence
    split
    · rename_i hyx
      by_cases hx : x.confidence = c
      · simp [List.filter_cons, hx]
      · simp [List.filter_cons, hx]
    · rename_i hyx
      push_neg at hyx
      rw [List.filter_cons, ih, List.filter_cons]
      by_cases hx : x.confidence = c
      · have hy : ¬(y.confidence = c) := by
          intro h
          rw [← hx] at h
          exact absurd h (ne_of_gt hyx)
        simp [hx, hy]
      · by_cases hy : y.confidence = c
        · simp [hx, hy]
        · simp [hx, hy]

/-- The confidence sort is stable: at every confidence value the filtered
subsequence is unchanged. -/
theorem sortByConfidenceDesc_stable (c : ℝ) (l : List ScoredMemory) :
    (sortByConfidenceDesc l).filter (fun m => decide (m.confidence = c)) =
      l.filter (fun m => decide (m.confidence = c)) := by
  induction l with
  | nil => rfl
  | cons x xs ih =>
    unfold sortByConfidenceDesc at ih ⊢
    rw [List.foldr_cons, insertByConfidence_filter_key, List.filter_cons]
    by_cases hx : x.confidence = c
    · simp [hx, ih]
    · simp [hx, ih]

/-- The confidence attached to the 0.9-similarity candidate evaluates to 0.9
under the pure-semantic weight configuration. -/
theorem scoreMemory_high_conf : (scoreMemory cfgScore ctxPlain memHigh).confidence = 0.9 := by
  show calculateConfidence cfgScore memHigh ctxPlain (memHigh.similarity.getD 0) = 0.9
  unfold calculateConfidence
  simp only [cfgScore, ctxPlain, memHigh, stdTriggers, jsTruthy, Option.getD_some]
  rw [if_neg (by decide : ¬("projA" : String) = "ctxProj")]
  norm_num

/-- The confidence attached to the 0.6-similarity candidate evaluates to 0.6
under the pure-semantic weight configuration. -/
theorem scoreMemory_low_conf : (scoreMemory cfgScore ctxPlain memLow).confidence = 0.6 := by
  show calculateConfidence cfgScore memLow ctxPlain (memLow.similarity.getD 0) = 0.6
  unfold calculateConfidence
  simp only [cfgScore, ctxPlain, memLow, stdTriggers, jsTruthy, Option.getD_some]
  rw [if_neg (by decide : ¬("projB" : String) = "ctxProj")]
  norm_num

/-- Ranking the 0.9 and 0.6 candidates at threshold 0.75 keeps only the first. -/
theorem rank_scenario_eval :
    rankCandidates cfgScore ctxPlain [memHigh, memLow] 3 =
      [scoreMemory cfgScore ctxPlain memHigh] := by
  have hc1 : cfgScore.retrieval.min_confidence ≤
      (scoreMemory cfgScore ctxPlain memHigh).confidence := by
    rw [scoreMemory_high_conf]
    norm_num [cfgScore]
  have hc2 : ¬(cfgScore.retrieval.min_confidence ≤
      (scoreMemory cfgScore ctxPlain memLow).confidence) := by
    rw [scoreMemory_low_conf]
    norm_num [cfgScore]
  unfold rankCandidates
  dsimp only
  rw [List.map_cons, List.map_cons, List.map_nil]
  rw [List.filter_cons, List.filter_cons, List.filter_nil]
  rw [decide_eq_true hc1, decide_eq_false hc2]
  simp only [if_true, if_false, Bool.false_eq_true]
  rfl

/-- C5: rankCandidates (the deterministic core of retrieveMemories) scores the
candidates, discards those below the configured minimum confidence, sorts the
survivors descending by confidence with a stable sort (a permutation that is
descending and preserves, at every confidence value, the original filtered
order), and truncates to the maximum result count; retrieve returns the head
of the retrieved list as topMemory; and on candidates of confidence 0.9 and
0.6 with threshold 0.75 only the first survives and is the head. -/
theorem rankCandidates_spec :
    (∀ (config : Config) (context : Context) (candidates : List RetrievedMemory)
        (maxResults : Nat),
      rankCandidates config context candidates maxResults =
        (sortByConfidenceDesc ((candidates.map (scoreMemory config context)).filter
          (fun m => decide (config.retrieval.min_confidence ≤ m.confidence)))).take
            maxResults ∧
      (∀ m ∈ rankCandidates config context candidates maxResults,
        config.retrieval.min_confidence ≤ m.confidence) ∧
      List.Pairwise (fun p q => q.confidence ≤ p.confidence)
        (rankCandidates config context candidates maxResults) ∧
      (sortByConfidenceDesc ((candidates.map (scoreMemory config context)).filter
          (fun m => decide (config.retrieval.min_confidence ≤ m.confidence)))).Perm
        ((candidates.map (scoreMemory config context)).filter
          (fun m => decide (config.retrieval.min_confidence ≤ m.confidence))) ∧
      (∀ c : ℝ,
        (sortByConfidenceDesc ((candidates.map (scoreMemory config context)).filter
          (fun m => decide (config.retrieval.min_confidence ≤ m.confidence)))).filter
            (fun m => decide (m.confidence = c)) =
          ((candidates.map (scoreMemory config context)).filter
            (fun m => decide (config.retrieval.min_confidence ≤ m.confidence))).filter
              (fun m => decide (m.confidence = c))) ∧
      (rankCandidates config context candidates maxResults).length ≤ maxResults) ∧
    (∀ (config : Config) (db : Database) (context : Context)
        (queryEmbedding : Except String (List ℝ)),
      (retrieve config db context queryEmbedding).topMemory =
        (retrieve config db context queryEmbedding).memories.head?) ∧
    rankCandidates cfgScore ctxPlain [memHigh, memLow] 3 =
      [scoreMemory cfgScore ctxPlain memHigh] ∧
    (scoreMemory cfgScore ctxPlain memHigh).confidence = 0.9 ∧
    (scoreMemory cfgScore ctxPlain memLow).confidence = 0.6 ∧
    (rankCandidates cfgScore ctxPlain [memHigh, memLow] 3).head? =
      some (scoreMemory cfgScore ctxPlain memHigh) := by
  refine ⟨?_, ?_, rank_scenario_eval, scoreMemory_high_conf, scoreMemory_low_conf,
    by rw [rank_scenario_eval]; rfl⟩
  · intro config context candidates maxResults
    refine ⟨rfl, ?_, ?_, sortByConfidenceDesc_perm _, fun c => sortByConfidenceDesc_stable c _,
      List.length_take_le _ _⟩
    · intro m hm
      have hm' : m ∈ sortByConfidenceDesc ((candidates.map (scoreMemory config context)).filter
          (fun m => decide (config.retrieval.min_confidence ≤ m.confidence))) :=
        List.take_subset _ _ hm
      have hm'' := (sortByConfidenceDesc_perm _).mem_iff.mp hm'
      simp only [List.mem_filter] at hm''
      exact of_decide_eq_true hm''.2
    · exact List.Pairwise.sublist (List.take_sublist _ _) (sortByConfidenceDesc_pairwise _)
  · intro config db context queryEmbedding
    unfold retrieve
    dsimp only
    by_cases ht : (shouldTriggerRetrieval context config).1 = false
    · rw [if_pos ht]
      rfl
    · rw [if_neg ht]
      by_cases hlen : (retrieveMemories config db context queryEmbedding none).length = 0
      · rw [if_pos hlen]
        rfl
      · rw [if_neg hlen]

/-- Witness for C5: the confidence lower bound instantiated at the surviving
candidate of the 0.9 and 0.6 scenario. -/
theorem rankCandidates_spec_witness :
    cfgScore.retrieval.min_confidence ≤ (scoreMemory cfgScore ctxPlain memHigh).confidence :=
  (rankCandidates_spec.1 cfgScore ctxPlain [memHigh, memLow] 3).2.1
    (scoreMemory cfgScore ctxPlain memHigh)
    (by rw [rank_scenario_eval]; exact List.mem_singleton_self _)

/-- cosineSimilarity raises the dimension-mismatch error on unequal lengths. -/
theorem cosineSimilarity_dim_error (a b : List ℝ) (h : a.length ≠ b.length) :
    cosineSimilarity a b = Except.error "Vectors must have the same dimension" := by
  unfold cosineSimilarity
  rw [if_pos h]

/-- Skipping an episode without a stored embedding. -/
theorem computeSimilarities_cons_none (db : Database) (q : List ℝ) (ep : Episode)
    (rest : List Episode) (h : db.getEmbedding ep.id = none) :
    computeSimilarities db q (ep :: rest) = computeSimilarities db q rest := by
  simp only [computeSimilarities, h]

/-- Unfolding one embedding-bearing episode of the similarity loop. -/
theorem computeSimilarities_cons_some (db : Database) (q : List ℝ) (ep : Episode)
    (rest : List Episode) (v : List ℝ) (h : db.getEmbedding ep.id = some v) :
    computeSimilarities db q (ep :: rest) =
      match cosineSimilarity q v with
      | Except.error e => Except.error e
      | Except.ok similarity =>
        match computeSimilarities db q rest with
        | Except.error e => Except.error e
        | Except.ok tail =>
          Except.ok (⟨ep.id, ep.project_hash, ep.fix, some similarity⟩ :: tail) := by
  simp only [computeSimilarities, h]

/-- A stored vector whose dimension disagrees with the query embedding makes
the whole similarity loop abort with an error. -/
theorem computeSimilarities_error (db : Database) (q : List ℝ) :
    ∀ episodes : List Episode,
      (∃ ep ∈ episodes, ∃ v, db.getEmbedding ep.id = some v ∧ v.length ≠ q.length) →
      ∃ e, computeSimilarities db q episodes = Except.error e := by
  intro episodes
  induction episodes with
  | nil =>
    rintro ⟨ep, hep, _⟩
    simp at hep
  | cons ep rest ih =>
    rintro ⟨ep', hep', v, hv, hlen⟩
    rcases List.mem_cons.mp hep' with rfl | hmem
    · rw [computeSimilarities_cons_some db q ep' rest v hv]
      rw [cosineSimilarity_dim_error q v (Ne.symm hlen)]
      exact ⟨_, rfl⟩
    · cases hdb : db.getEmbedding ep.id with
      | none =>
        rw [computeSimilarities_cons_none db q ep rest hdb]
        exact ih ⟨ep', hmem, v, hv, hlen⟩
      | some vec =>
        rw [computeSimilarities_cons_some db q ep rest vec hdb]
        rcases ih ⟨ep', hmem, v, hv, hlen⟩ with ⟨e, he⟩
        cases hcos : cosineSimilarity q vec with
        | error e' => exact ⟨e', rfl⟩
        | ok s =>
          rw [he]
          exact ⟨e, rfl⟩

/-- A provider failure makes semanticSearch return the empty list. -/
theorem semanticSearch_provider_error (db : Database) (msg : String) (limit : Nat) :
    semanticSearch db (Except.error msg) limit = [] := rfl

/-- A dimension mismatch on any embedding-bearing candidate makes semanticSearch
return the empty list (the thrown error is caught). -/
theorem semanticSearch_dim_mismatch (db : Database) (q : List ℝ) (limit : Nat)
    (h : ∃ ep ∈ db.recentEpisodes, ∃ v,
      db.getEmbedding ep.id = some v ∧ v.length ≠ q.length) :
    semanticSearch db (Except.ok q) limit = [] := by
  rcases computeSimilarities_error db q db.recentEpisodes h with ⟨e, he⟩
  unfold semanticSearch
  dsimp only
  rw [he]

/-- Every match textSearch returns carries the placeholder similarity 0.5. -/
theorem textSearch_placeholder (db : Database) (context : Context) (limit : Nat) :
    ∀ m ∈ textSearch db context limit, m.similarity = some 0.5 := by
  intro m hm
  unfold textSearch at hm
  dsimp only at hm
  by_cases hq : (joinWithSep ' '
      ((if jsTruthy context.command then [context.command.getD ""] else []) ++
       (if jsTruthy context.error then [context.error.getD ""] else []) ++
       (if jsTruthy context.cwd then
         (let projectName := (splitOnChar '/' (context.cwd.getD "").data []).getLastD []
          if projectName ≠ [] then [String.mk projectName] else [])
        else []))).length = 0
  · rw [if_pos hq] at hm
    simp at hm
  · rw [if_neg hq] at hm
    rcases List.mem_map.mp hm with ⟨ep, _, heq⟩
    rw [← heq]

/-- The fallback wiring of retrieveMemories: on a provider failure the semantic
result is empty and the ranked result is computed from the lexical fallback. -/
theorem retrieveMemories_fallback (config : Config) (db : Database) (context : Context)
    (msg : String) (maxResults : Option Nat) :
    retrieveMemories config db context (Except.error msg) maxResults =
      rankCandidates config context
        (textSearch db context (resolveMaxResults config maxResults))
        (resolveMaxResults config maxResults) := rfl

/-- C7: an embedding-provider failure or a dimension mismatch during semantic
search is never fatal: semanticSearch catches it and returns no matches,
retrieveMemories then runs the ranking on the lexical fallback results, and
every lexical match carries the fixed placeholder similarity 0.5. -/
theorem retrieval_fallback_spec :
    (∀ (db : Database) (msg : String) (limit : Nat),
      semanticSearch db (Except.error msg) limit = []) ∧
    (∀ (db : Database) (q : List ℝ) (limit : Nat),
      (∃ ep ∈ db.recentEpisodes, ∃ v,
        db.getEmbedding ep.id = some v ∧ v.length ≠ q.length) →
      semanticSearch db (Except.ok q) limit = []) ∧
    (∀ (db : Database) (context : Context) (limit : Nat),
      ∀ m ∈ textSearch db context limit, m.similarity = some 0.5) ∧
    (∀ (config : Config) (db : Database) (context : Context) (msg : String)
        (maxResults : Option Nat),
      retrieveMemories config db context (Except.error msg) maxResults =
        rankCandidates config context
          (textSearch db context (resolveMaxResults config maxResults))
          (resolveMaxResults config maxResults)) :=
  ⟨semanticSearch_provider_error, semanticSearch_dim_mismatch, textSearch_placeholder,
    retrieveMemories_fallback⟩

/-- Witness for C7: a concrete dimension mismatch (stored vector of length 2,
query of length 1) yields no semantic matches, and a concrete lexical match
carries similarity 0.5. -/
theorem retrieval_fallback_spec_witness :
    semanticSearch ⟨[⟨9, "projA", none⟩], fun _ => some [(0 : ℝ), 0], fun _ _ => []⟩
      (Except.ok [(1 : ℝ)]) 3 = [] ∧
    (⟨9, "projA", none, some 0.5⟩ : RetrievedMemory).similarity = some 0.5 := by
  constructor
  · exact retrieval_fallback_spec.2.1
      ⟨[⟨9, "projA", none⟩], fun _ => some [(0 : ℝ), 0], fun _ _ => []⟩ [(1 : ℝ)] 3
      ⟨⟨9, "projA", none⟩, by simp, [(0 : ℝ), 0], rfl, by simp⟩
  · exact retrieval_fallback_spec.2.2.1
      ⟨[], fun _ => none, fun _ _ => [⟨9, "projA", none⟩]⟩
      ⟨some "npm", none, none, "projA", 1, false, false, false⟩ 3
      ⟨9, "projA", none, some 0.5⟩
      (by rw [show textSearch ⟨[], fun _ => none, fun _ _ => [⟨9, "projA", none⟩]⟩
          ⟨some "npm", none, none, "projA", 1, false, false, false⟩ 3 =
          [⟨9, "projA", none, some 0.5⟩] from rfl]
          exact List.mem_singleton_self _)

end Ghostly
